import Mathlib

/-!
Shallow embedding of the `BitcoinIndicators` module (the technical-indicator
computation engine of the crypto-price repository): the indicator library
(`calculateRSI`, `calculateEMA`, `calculateMACD`, `calculateBollingerBands`),
the composite scorer (`calculateBullMarketIndicator`) and the aggregator
(`getAllIndicators`).

Modelling conventions:
- JavaScript numbers are modelled by `ℚ` (exact arithmetic); integral values
  (the composite score, timestamps) by `ℤ`/`ℕ`.
- An indicator that returns `null` on insufficient data returns `none`.
- A thrown `TypeError` (property access on `null`) is `Except.error ()`.
- `Math.sqrt` is an opaque float routine; it enters the computation only in
  `calculateBollingerBands`.  It is modelled by a bundled function `SqrtModel`
  carrying exactly the properties of `Math.sqrt` on non-negative inputs that
  the code relies on: non-negative results and `sqrt 0 = 0`.
- JavaScript relational operators (`>`, `>=`, `<`) coerce `null` to `0`
  (`ToNumber(null) = 0`); where the aggregator lets a `null` indicator flow
  into a comparison, the embedding uses `Option.getD _ 0`.
-/

namespace BitcoinIndicators

/-- Model of JavaScript `Math.sqrt` restricted to the properties the indicator
code relies on: non-negative inputs give non-negative outputs, and
`Math.sqrt(0) = 0`. -/
structure SqrtModel where
  sqrt : ℚ → ℚ
  sqrt_nonneg : ∀ q : ℚ, 0 ≤ q → 0 ≤ sqrt q
  sqrt_zero : sqrt 0 = 0

/-- A concrete `SqrtModel` instance, used to evaluate the aggregator on
concrete inputs: Mathlib's rational square-root approximation. -/
def ratSqrtModel : SqrtModel where
  sqrt := Rat.sqrt
  sqrt_nonneg := fun q _ => Rat.sqrt_nonneg q
  sqrt_zero := by decide

/-- One OHLC candle as produced by `fetchKlines`. -/
structure Candle where
  timestamp : ℤ
  «open» : ℚ
  high : ℚ
  low : ℚ
  close : ℚ
  volume : ℚ
deriving DecidableEq

/-- The consecutive price changes `change = closes[i] - closes[i-1]` for
`i = 1 .. closes.length - 1`, in order (both loops of `calculateRSI` walk
exactly this sequence). -/
def deltasOf (closes : List ℚ) : List ℚ :=
  (closes.zip closes.tail).map fun p => p.2 - p.1

/-- One iteration of the Wilder smoothing loop of `calculateRSI`
(`avgGain = (avgGain*(period-1) + gain)/period`, likewise for `avgLoss`,
with `gain = change > 0 ? change : 0` and `loss = change < 0 ? -change : 0`). -/
def wilderStep (period : ℕ) (gl : ℚ × ℚ) (change : ℚ) : ℚ × ℚ :=
  ((gl.1 * ((period : ℚ) - 1) + (if change > 0 then change else 0)) / period,
   (gl.2 * ((period : ℚ) - 1) + (if change < 0 then -change else 0)) / period)

/-- The seed pair `(avgGain, avgLoss)` of `calculateRSI`: simple averages of
gains and losses over the first `period` changes (the first loop adds
`change` to `gains` when `change > 0` and `-change` to `losses` otherwise). -/
def rsiInit (closes : List ℚ) (period : ℕ) : ℚ × ℚ :=
  ((((deltasOf closes).take period).map fun c => if c > 0 then c else 0).sum / period,
   (((deltasOf closes).take period).map fun c => if c > 0 then 0 else -c).sum / period)

/-- The final `(avgGain, avgLoss)` pair of `calculateRSI`: the seed averages
smoothed over the remaining changes (the second loop runs over the changes at
indices `period .. closes.length - 2` of `deltasOf`). -/
def rsiAvgs (closes : List ℚ) (period : ℕ) : ℚ × ℚ :=
  ((deltasOf closes).drop period).foldl (wilderStep period) (rsiInit closes period)

/-- Source `calculateRSI(closes, period)`: `null` when `closes.length < period + 1`;
otherwise seed averages over the first `period` changes, Wilder smoothing over
the remaining changes, and `avgLoss == 0 ? 100 : 100 - 100/(1 + avgGain/avgLoss)`. -/
def calculateRSI (closes : List ℚ) (period : ℕ) : Option ℚ :=
  if closes.length < period + 1 then none
  else if (rsiAvgs closes period).2 = 0 then some 100
  else some (100 - 100 / (1 + (rsiAvgs closes period).1 / (rsiAvgs closes period).2))

/-- One step of the EMA recurrence `ema = close*k + ema*(1-k)`. -/
def emaStep (k : ℚ) (ema close : ℚ) : ℚ :=
  close * k + ema * (1 - k)

/-- Source `calculateEMA(closes, period)`: `null` when `closes.length < period`;
otherwise seed with the simple average of the first `period` closes and apply
the recurrence with `k = 2/(period+1)` over the remaining closes.  This
Option-valued embedding is faithful for `period ≥ 1`; at `period = 0` the
source instead throws a TypeError (`[].reduce` with no initial value on the
empty seed slice) — that error path is modelled by `calculateEMA_run` below. -/
def calculateEMA (closes : List ℚ) (period : ℕ) : Option ℚ :=
  if closes.length < period then none
  else
    let k : ℚ := 2 / ((period : ℚ) + 1)
    let seed := (closes.take period).sum / period
    some ((closes.drop period).foldl (emaStep k) seed)

/-- The `{macd, signal, histogram}` object returned by `calculateMACD`. -/
structure MacdR where
  macd : ℚ
  signal : ℚ
  histogram : ℚ
deriving DecidableEq

/-- One iteration of the MACD main loop: update the fast and slow EMAs with
the current close and push `fastEMA - slowEMA` onto the MACD line. -/
def macdStep (fastK slowK : ℚ) (st : ℚ × ℚ × List ℚ) (close : ℚ) : ℚ × ℚ × List ℚ :=
  let fastEMA := close * fastK + st.1 * (1 - fastK)
  let slowEMA := close * slowK + st.2.1 * (1 - slowK)
  (fastEMA, slowEMA, st.2.2 ++ [fastEMA - slowEMA])

/-- Source `calculateMACD(closes, fastPeriod, slowPeriod, signalPeriod)`: `null` when
`closes.length < slowPeriod + signalPeriod`; otherwise seed both EMAs as simple
averages, run the recurrence from index `max(fastPeriod, slowPeriod)` recording
the MACD line, compute the signal line as an EMA of the MACD line with
`signalPeriod`, and return the last MACD value, the signal value and their
difference.  (`macdLine[macdLine.length-1]` is modelled by `getLastD 0`; the
MACD line is non-empty whenever the JavaScript expression is defined.)  This
Option-valued embedding is faithful at positive periods with
`fastPeriod ≤ slowPeriod` (in particular at the 12/26/9 call site); with
degenerate periods the source instead throws a TypeError on an empty-slice
`reduce` — that error path is modelled by `calculateMACD_run` below. -/
def calculateMACD (closes : List ℚ) (fastPeriod slowPeriod signalPeriod : ℕ) : Option MacdR :=
  if closes.length < slowPeriod + signalPeriod then none
  else
    let fastK : ℚ := 2 / ((fastPeriod : ℚ) + 1)
    let slowK : ℚ := 2 / ((slowPeriod : ℚ) + 1)
    let fastEMA0 := (closes.take fastPeriod).sum / fastPeriod
    let slowEMA0 := (closes.take slowPeriod).sum / slowPeriod
    let st := (closes.drop (max fastPeriod slowPeriod)).foldl (macdStep fastK slowK)
      (fastEMA0, slowEMA0, [])
    let macdLine := st.2.2
    let signalK : ℚ := 2 / ((signalPeriod : ℚ) + 1)
    let signalSeed := (macdLine.take signalPeriod).sum / signalPeriod
    let signalEMA := (macdLine.drop signalPeriod).foldl (emaStep signalK) signalSeed
    let currentMACD := macdLine.getLastD 0
    some { macd := currentMACD, signal := signalEMA, histogram := currentMACD - signalEMA }

/-- The `{upper, middle, lower}` object returned by `calculateBollingerBands`. -/
structure BollR where
  upper : ℚ
  middle : ℚ
  lower : ℚ
deriving DecidableEq

/-- Source `calculateBollingerBands(closes, period, stdDev)`: `null` when
`closes.length < period`; otherwise over the last `period` closes
(`closes.slice(-period)`, which for `period = 0` is the whole array), middle =
simple mean, variance = mean of squared deviations (divisor `period`), and
bands at `middle ± sqrt(variance) * stdDev`.  This Option-valued embedding is
faithful for `period ≥ 1`; at `period = 0` on an empty batch the source
instead throws a TypeError on `[].reduce` — that error path is modelled by
`calculateBollingerBands_run` below. -/
def calculateBollingerBands (S : SqrtModel) (closes : List ℚ) (period : ℕ) (stdDev : ℚ) :
    Option BollR :=
  if closes.length < period then none
  else
    let recentCloses := if period = 0 then closes else closes.drop (closes.length - period)
    let sma := recentCloses.sum / period
    let variance := (recentCloses.map fun close => (close - sma) ^ 2).sum / (period : ℚ)
    let standardDeviation := S.sqrt variance
    some { upper := sma + standardDeviation * stdDev
           middle := sma
           lower := sma - standardDeviation * stdDev }

/-- The `{score, phase, phaseColor, signals}` object returned by
`calculateBullMarketIndicator`. -/
structure BullR where
  score : ℤ
  phase : String
  phaseColor : String
  signals : List String
deriving DecidableEq

/-- The phase / phaseColor selection at the end of
`calculateBullMarketIndicator`, as written in the source: the threshold chain
`score >= 80`, `>= 60`, `>= 40`, `>= 20`, else, evaluated top to bottom. -/
def phaseOf (score : ℤ) : String × String :=
  if score ≥ 80 then ("Bull Market Fort 🚀", "up")
  else if score ≥ 60 then ("Bull Market Modéré 📈", "up")
  else if score ≥ 40 then ("Neutre / Consolidation ⚖️", "neutral")
  else if score ≥ 20 then ("Bear Market Modéré 📉", "down")
  else ("Bear Market Fort 🔻", "down")

/-- Source `calculateBullMarketIndicator(rsi, macd, ema50, ema200, currentPrice)`:
five rule blocks, each adding its weight to `score` and pushing its tag onto
`signals` (the two price rules push no tag when they fail), then the phase
selection.  Each `(weight, tags)` pair below is one `if` block of the source,
in source order. -/
def calculateBullMarketIndicator (rsi : ℚ) (macd : MacdR) (ema50 ema200 currentPrice : ℚ) :
    BullR :=
  let s1 : ℤ × List String :=
    if rsi ≥ 40 ∧ rsi ≤ 70 then (20, ["RSI sain"])
    else if rsi > 70 then (0, ["RSI surachat"])
    else (0, ["RSI faible"])
  let s2 : ℤ × List String :=
    if macd.histogram > 0 then (25, ["MACD positif"]) else (0, ["MACD négatif"])
  let s3 : ℤ × List String :=
    if ema50 > ema200 then (30, ["Golden Cross"]) else (0, ["Death Cross"])
  let s4 : ℤ × List String :=
    if currentPrice > ema50 then (15, ["Prix > EMA50"]) else (0, [])
  let s5 : ℤ × List String :=
    if currentPrice > ema200 then (10, ["Prix > EMA200"]) else (0, [])
  let score := s1.1 + s2.1 + s3.1 + s4.1 + s5.1
  let pc := phaseOf score
  { score := score
    phase := pc.1
    phaseColor := pc.2
    signals := s1.2 ++ s2.2 ++ s3.2 ++ s4.2 ++ s5.2 }

/-- The `rsi` field of the snapshot returned by `getAllIndicators`. -/
structure RsiInfo where
  value : Option ℚ
  period : ℕ
  timeframe : String
deriving DecidableEq

/-- The `macd` field of the snapshot returned by `getAllIndicators`. -/
structure MacdInfo where
  macd : ℚ
  signal : ℚ
  histogram : ℚ
  periods : String
  timeframe : String
deriving DecidableEq

/-- The `bollinger` field of the snapshot returned by `getAllIndicators`. -/
structure BollingerInfo where
  upper : ℚ
  middle : ℚ
  lower : ℚ
  spread : ℚ
  spreadCategory : String
  period : ℕ
  timeframe : String
deriving DecidableEq

/-- The `ema` field of the snapshot returned by `getAllIndicators`.  `ema50`
and `ema200` are the raw results of `calculateEMA` and may be `null`. -/
structure EmaInfo where
  ema50 : Option ℚ
  ema200 : Option ℚ
  trend : String
  timeframe : String
deriving DecidableEq

/-- The object returned by `getAllIndicators`. -/
structure Snapshot where
  currentPrice : ℚ
  timestamp : ℤ
  rsi : RsiInfo
  macd : MacdInfo
  bollinger : BollingerInfo
  ema : EmaInfo
  bullMarket : BullR
deriving DecidableEq

/-- Decidable equality on aggregation results, for evaluating the aggregator
on concrete candle batches. -/
instance : DecidableEq (Except Unit Snapshot) := fun a b =>
  match a, b with
  | .ok x, .ok y => decidable_of_iff (x = y) (by simp)
  | .error x, .error y => decidable_of_iff (x = y) (by simp)
  | .ok _, .error _ => isFalse (by simp)
  | .error _, .ok _ => isFalse (by simp)

/-- Source `getAllIndicators`, with the candle batch (result of `fetchKlines`) and the
clock reading (`Date.now()`) passed explicitly.  The source performs no `null`
checks: `calculateBullMarketIndicator` dereferences `macd.histogram`, so a
`null` MACD throws a `TypeError` (`Except.error ()`), and `bollinger.upper`
throws next when Bollinger is `null`; a `null` `rsi`/`ema50`/`ema200` flows
into relational operators, which coerce `null` to `0` (`Option.getD _ 0`).
`closes[closes.length-1]` is modelled by `getLastD 0` (the batch is non-empty
in every defined execution). -/
def getAllIndicators (S : SqrtModel) (klines : List Candle) (now : ℤ) : Except Unit Snapshot :=
  let closes := klines.map Candle.close
  let currentPrice := closes.getLastD 0
  let rsi := calculateRSI closes 14
  let macd := calculateMACD closes 12 26 9
  let bollinger := calculateBollingerBands S closes 20 2
  let ema50 := calculateEMA closes 50
  let ema200 := calculateEMA closes 200
  match macd with
  | none => Except.error ()
  | some m =>
    let bullMarket :=
      calculateBullMarketIndicator (rsi.getD 0) m (ema50.getD 0) (ema200.getD 0) currentPrice
    match bollinger with
    | none => Except.error ()
    | some b =>
      let spread := b.upper - b.lower
      let spreadCategory :=
        if spread > 20000 then "Élevé (Forte volatilité)"
        else if spread < 10000 then "Faible (Consolidation)"
        else "Moyen (Volatilité normale)"
      let emaTrend :=
        if ema50.getD 0 > ema200.getD 0 then "Haussier (Golden Cross)"
        else if ema50.getD 0 < ema200.getD 0 then "Baissier (Death Cross)"
        else "Neutre"
      Except.ok
        { currentPrice := currentPrice
          timestamp := now
          rsi := { value := rsi, period := 14, timeframe := "Daily" }
          macd := { macd := m.macd, signal := m.signal, histogram := m.histogram
                    periods := "12/26/9", timeframe := "Daily" }
          bollinger := { upper := b.upper, middle := b.middle, lower := b.lower
                         spread := spread, spreadCategory := spreadCategory
                         period := 20, timeframe := "Daily" }
          ema := { ema50 := ema50, ema200 := ema200, trend := emaTrend, timeframe := "Daily" }
          bullMarket := bullMarket }

/-- A batch of 50 identical candles (close 1), for concrete evaluation of the
aggregator below the EMA-200 lookback. -/
def klines50 : List Candle :=
  List.replicate 50 { timestamp := 0, «open» := 1, high := 1, low := 1, close := 1, volume := 0 }

/-! ### Error-path embeddings of the indicator seeds

The source seeds every EMA-style average with
`array.slice(...).reduce((a, b) => a + b)` — `reduce` with NO initial value,
which throws a TypeError on an empty array.  The Option-valued embeddings
above collapse that throw (an empty sum and a division by zero both yield 0 in
`ℚ`); the `_run` versions below keep it, returning `Except.error ()` exactly
where the JavaScript throws, `Except.ok none` where it returns `null`, and
`Except.ok (some _)` where it returns a result. -/

/-- JavaScript `array.reduce((a, b) => a + b)` with no initial value: a
TypeError (modelled `Except.error ()`) on the empty array, the sum otherwise. -/
def reduceSum : List ℚ → Except Unit ℚ
  | [] => Except.error ()
  | c :: t => Except.ok (t.foldl (· + ·) c)

/-- Source `calculateEMA` with the `[].reduce` TypeError kept: identical to
`calculateEMA` except that the seed `closes.slice(0, period).reduce(...)`
throws when the slice is empty (that is, when `period = 0`, since past the
guard `closes.length ≥ period`). -/
def calculateEMA_run (closes : List ℚ) (period : ℕ) : Except Unit (Option ℚ) :=
  if closes.length < period then Except.ok none
  else
    match reduceSum (closes.take period) with
    | Except.error e => Except.error e
    | Except.ok s =>
      let k : ℚ := 2 / ((period : ℚ) + 1)
      Except.ok (some ((closes.drop period).foldl (emaStep k) (s / period)))

/-- Source `calculateMACD` with the `[].reduce` TypeErrors kept, in source
order: the fast seed, then the slow seed, then — after the main loop — the
signal seed over `macdLine.slice(0, signalPeriod)`, each throwing on an empty
slice.  Past the three seeds the computation is that of `calculateMACD`. -/
def calculateMACD_run (closes : List ℚ) (fastPeriod slowPeriod signalPeriod : ℕ) :
    Except Unit (Option MacdR) :=
  if closes.length < slowPeriod + signalPeriod then Except.ok none
  else
    match reduceSum (closes.take fastPeriod), reduceSum (closes.take slowPeriod) with
    | Except.error e, _ => Except.error e
    | _, Except.error e => Except.error e
    | Except.ok fs, Except.ok ss =>
      let fastK : ℚ := 2 / ((fastPeriod : ℚ) + 1)
      let slowK : ℚ := 2 / ((slowPeriod : ℚ) + 1)
      let st := (closes.drop (max fastPeriod slowPeriod)).foldl (macdStep fastK slowK)
        (fs / fastPeriod, ss / slowPeriod, [])
      let macdLine := st.2.2
      match reduceSum (macdLine.take signalPeriod) with
      | Except.error e => Except.error e
      | Except.ok sgs =>
        let signalK : ℚ := 2 / ((signalPeriod : ℚ) + 1)
        let signalEMA := (macdLine.drop signalPeriod).foldl (emaStep signalK) (sgs / signalPeriod)
        let currentMACD := macdLine.getLastD 0
        Except.ok (some { macd := currentMACD, signal := signalEMA
                          histogram := currentMACD - signalEMA })

/-- Source `calculateBollingerBands` with the `[].reduce` TypeErrors kept:
both the mean and the squared-deviations `reduce` throw on an empty
`recentCloses`, which past the guard happens only for `period = 0` on an
empty batch. -/
def calculateBollingerBands_run (S : SqrtModel) (closes : List ℚ) (period : ℕ) (stdDev : ℚ) :
    Except Unit (Option BollR) :=
  if closes.length < period then Except.ok none
  else
    let recentCloses := if period = 0 then closes else closes.drop (closes.length - period)
    match reduceSum recentCloses with
    | Except.error e => Except.error e
    | Except.ok s =>
      let sma := s / period
      match reduceSum (recentCloses.map fun close => (close - sma) ^ 2) with
      | Except.error e => Except.error e
      | Except.ok sq =>
        let standardDeviation := S.sqrt (sq / (period : ℚ))
        Except.ok (some { upper := sma + standardDeviation * stdDev
                          middle := sma
                          lower := sma - standardDeviation * stdDev })

/-- Spec-side scoring function (§4.5 rule table of the spec): the sum of the
weights of exactly those conditions whose pass tag appears in a signals list.
Used to compare the code's additive score against the emitted tags. -/
def specScoreOfSignals (signals : List String) : ℤ :=
  (if "RSI sain" ∈ signals then 20 else 0) +
  (if "MACD positif" ∈ signals then 25 else 0) +
  (if "Golden Cross" ∈ signals then 30 else 0) +
  (if "Prix > EMA50" ∈ signals then 15 else 0) +
  (if "Prix > EMA200" ∈ signals then 10 else 0)

/-! ### Guard lemmas: each indicator is defined exactly on batches reaching its lookback -/

lemma calculateRSI_isSome_iff (closes : List ℚ) (period : ℕ) :
    (calculateRSI closes period).isSome ↔ period + 1 ≤ closes.length := by
  unfold calculateRSI
  split
  · simp; omega
  · split <;> simp <;> omega

lemma calculateEMA_isSome_iff (closes : List ℚ) (period : ℕ) :
    (calculateEMA closes period).isSome ↔ period ≤ closes.length := by
  unfold calculateEMA
  split <;> simp <;> omega

lemma calculateMACD_isSome_iff (closes : List ℚ) (fastPeriod slowPeriod signalPeriod : ℕ) :
    (calculateMACD closes fastPeriod slowPeriod signalPeriod).isSome ↔
      slowPeriod + signalPeriod ≤ closes.length := by
  unfold calculateMACD
  split <;> simp <;> omega

lemma calculateBollingerBands_isSome_iff (S : SqrtModel) (closes : List ℚ) (period : ℕ)
    (stdDev : ℚ) :
    (calculateBollingerBands S closes period stdDev).isSome ↔ period ≤ closes.length := by
  unfold calculateBollingerBands
  split <;> simp <;> omega

/-- Helper: on a non-empty list, `reduce((a, b) => a + b)` is the sum. -/
lemma foldl_add_eq_sum (t : List ℚ) : ∀ c : ℚ, t.foldl (· + ·) c = c + t.sum := by
  induction t with
  | nil => simp
  | cons a t ih =>
    intro c
    rw [List.foldl_cons, ih, List.sum_cons]
    ring

/-- Helper: `reduceSum` succeeds exactly on non-empty lists, with the sum. -/
lemma reduceSum_eq_sum (l : List ℚ) (h : l ≠ []) : reduceSum l = Except.ok l.sum := by
  cases l with
  | nil => exact absurd rfl h
  | cons c t =>
    show Except.ok (t.foldl (· + ·) c) = Except.ok (c :: t).sum
    rw [foldl_add_eq_sum, List.sum_cons]

/-- Helper: each MACD main-loop step appends exactly one point, so the MACD
line has one point per close past `max(fastPeriod, slowPeriod)`. -/
lemma macd_line_length (fastK slowK : ℚ) (l : List ℚ) :
    ∀ st : ℚ × ℚ × List ℚ,
      ((l.foldl (macdStep fastK slowK) st).2.2).length = st.2.2.length + l.length := by
  induction l with
  | nil => intro st; simp
  | cons c t ih =>
    intro st
    rw [List.foldl_cons, ih]
    unfold macdStep
    simp only [List.length_append, List.length_cons, List.length_nil]
    omega

/-- Helper: for `period ≥ 1` the error path of `calculateEMA_run` is dead and
it agrees with the Option-valued `calculateEMA`. -/
lemma calculateEMA_run_eq (closes : List ℚ) (period : ℕ) (hp : 1 ≤ period) :
    calculateEMA_run closes period = Except.ok (calculateEMA closes period) := by
  unfold calculateEMA_run calculateEMA
  split
  · rfl
  · rename_i hlen
    have hne : closes.take period ≠ [] :=
      List.ne_nil_of_length_pos (by simp [List.length_take]; omega)
    rw [reduceSum_eq_sum _ hne]

/-- Helper: for positive fast and signal periods with
`fastPeriod ≤ slowPeriod` (the 12/26/9 call site) the error paths of
`calculateMACD_run` are dead and it agrees with the Option-valued
`calculateMACD`. -/
lemma calculateMACD_run_eq (closes : List ℚ) (fastPeriod slowPeriod signalPeriod : ℕ)
    (hf : 1 ≤ fastPeriod) (hsg : 1 ≤ signalPeriod) (hfs : fastPeriod ≤ slowPeriod) :
    calculateMACD_run closes fastPeriod slowPeriod signalPeriod =
      Except.ok (calculateMACD closes fastPeriod slowPeriod signalPeriod) := by
  unfold calculateMACD_run calculateMACD
  split
  · rfl
  · rename_i hlen
    have hlen' : slowPeriod + signalPeriod ≤ closes.length := by omega
    have hnef : closes.take fastPeriod ≠ [] :=
      List.ne_nil_of_length_pos (by simp [List.length_take]; omega)
    have hnes : closes.take slowPeriod ≠ [] :=
      List.ne_nil_of_length_pos (by simp [List.length_take]; omega)
    rw [reduceSum_eq_sum _ hnef, reduceSum_eq_sum _ hnes]
    dsimp only
    have hml : ((closes.drop (max fastPeriod slowPeriod)).foldl
        (macdStep (2 / ((fastPeriod : ℚ) + 1)) (2 / ((slowPeriod : ℚ) + 1)))
        ((closes.take fastPeriod).sum / fastPeriod, (closes.take slowPeriod).sum / slowPeriod,
          [])).2.2.take signalPeriod ≠ [] := by
      apply List.ne_nil_of_length_pos
      rw [List.length_take, macd_line_length]
      simp only [List.length_nil, List.length_drop]
      omega
    rw [reduceSum_eq_sum _ hml]

/-- Helper: for `period ≥ 1` the error paths of `calculateBollingerBands_run`
are dead and it agrees with the Option-valued `calculateBollingerBands`. -/
lemma calculateBollingerBands_run_eq (S : SqrtModel) (closes : List ℚ) (period : ℕ)
    (stdDev : ℚ) (hp : 1 ≤ period) :
    calculateBollingerBands_run S closes period stdDev =
      Except.ok (calculateBollingerBands S closes period stdDev) := by
  unfold calculateBollingerBands_run calculateBollingerBands
  split
  · rfl
  · rename_i hlen
    rw [if_neg (by omega : ¬ period = 0)]
    have hne : closes.drop (closes.length - period) ≠ [] :=
      List.ne_nil_of_length_pos (by simp [List.length_drop]; omega)
    dsimp only
    rw [reduceSum_eq_sum _ hne]
    dsimp only
    rw [reduceSum_eq_sum _ (by simpa using hne)]

/-- Helper: an `isSome ↔ c` characterisation yields the `= none` and
`∃ some` characterisations. -/
lemma isSome_iff_transfer {α : Type} {o : Option α} {c : Prop} (h : o.isSome ↔ c) :
    (o = none ↔ ¬ c) ∧ ((∃ v, o = some v) ↔ c) := by
  constructor
  · rw [← h]
    cases o <;> simp
  · rw [← h]
    exact Option.isSome_iff_exists.symm

/-! ### Claim theorems -/

/-- C7 amended: at the parameters of every call site — a positive period for
RSI, EMA and Bollinger, and positive fast/signal periods with
`fastPeriod ≤ slowPeriod` for MACD — each indicator returns absence (`null`,
not an error; the seeded indicators are taken with their `[].reduce` TypeError
path modelled) exactly when the input is shorter than its lookback, and
otherwise returns a defined result.  (With `period = 0` the source instead
throws a TypeError on the empty seed slice; see the counterexample.) -/
theorem indicators_absent_iff_short (S : SqrtModel) (closes : List ℚ)
    (period fastPeriod slowPeriod signalPeriod : ℕ) (stdDev : ℚ)
    (hp : 1 ≤ period) (hf : 1 ≤ fastPeriod) (hsg : 1 ≤ signalPeriod)
    (hfs : fastPeriod ≤ slowPeriod) :
    ((calculateRSI closes period).isSome ↔ period + 1 ≤ closes.length) ∧
    ((calculateEMA_run closes period = Except.ok none) ↔ closes.length < period) ∧
    ((∃ v, calculateEMA_run closes period = Except.ok (some v)) ↔ period ≤ closes.length) ∧
    ((calculateMACD_run closes fastPeriod slowPeriod signalPeriod = Except.ok none) ↔
      closes.length < slowPeriod + signalPeriod) ∧
    ((∃ v, calculateMACD_run closes fastPeriod slowPeriod signalPeriod = Except.ok (some v)) ↔
      slowPeriod + signalPeriod ≤ closes.length) ∧
    ((calculateBollingerBands_run S closes period stdDev = Except.ok none) ↔
      closes.length < period) ∧
    ((∃ v, calculateBollingerBands_run S closes period stdDev = Except.ok (some v)) ↔
      period ≤ closes.length) := by
  have hE := isSome_iff_transfer (calculateEMA_isSome_iff closes period)
  have hM := isSome_iff_transfer
    (calculateMACD_isSome_iff closes fastPeriod slowPeriod signalPeriod)
  have hB := isSome_iff_transfer (calculateBollingerBands_isSome_iff S closes period stdDev)
  rw [calculateEMA_run_eq closes period hp,
    calculateMACD_run_eq closes fastPeriod slowPeriod signalPeriod hf hsg hfs,
    calculateBollingerBands_run_eq S closes period stdDev hp]
  refine ⟨calculateRSI_isSome_iff closes period, ?_, ?_, ?_, ?_, ?_, ?_⟩
  · simp only [Except.ok.injEq]
    rw [hE.1]
    omega
  · simp only [Except.ok.injEq]
    exact hE.2
  · simp only [Except.ok.injEq]
    rw [hM.1]
    omega
  · simp only [Except.ok.injEq]
    exact hM.2
  · simp only [Except.ok.injEq]
    rw [hB.1]
    omega
  · simp only [Except.ok.injEq]
    exact hB.2

/-- Witness for the amended C7: on a 50-close batch with the call-site
periods, EMA-50 is defined. -/
theorem indicators_absent_iff_short_witness :
    (∃ v, calculateEMA_run (List.replicate 50 (1:ℚ)) 50 = Except.ok (some v)) ↔
      50 ≤ (List.replicate 50 (1:ℚ)).length :=
  (indicators_absent_iff_short ratSqrtModel (List.replicate 50 1) 50 12 26 9 2
    (by decide) (by decide) (by decide) (by decide)).2.2.1

/-- C7 counterexample: with `period = 0` the input `[1, 2]` is not shorter
than the lookback, yet the source `calculateEMA` does not return a defined
result — `closes.slice(0, 0)` is empty and `[].reduce((a, b) => a + b)` with
no initial value throws a TypeError. -/
theorem calculateEMA_period_zero_throws :
    calculateEMA_run [1, 2] 0 = Except.error () ∧ ¬ ([(1:ℚ), 2].length < 0) :=
  ⟨rfl, by decide⟩

/-- C6: whenever `calculateMACD` returns a result, its `histogram` field equals
`macd - signal` exactly (the embedding computes in exact rational arithmetic,
so the identity holds with zero error, in particular within ε = 1e-9). -/
theorem calculateMACD_histogram_identity (closes : List ℚ)
    (fastPeriod slowPeriod signalPeriod : ℕ) (r : MacdR)
    (h : calculateMACD closes fastPeriod slowPeriod signalPeriod = some r) :
    r.histogram = r.macd - r.signal := by
  unfold calculateMACD at h
  split at h
  · exact absurd h (by simp)
  · injection h with h
    subst h
    rfl

set_option maxRecDepth 100000 in
/-- Witness for C6 at a concrete batch of 35 closes. -/
theorem calculateMACD_histogram_identity_witness :
    calculateMACD (List.replicate 35 0) 12 26 9 = some ⟨0, 0, 0⟩ ∧ (0 : ℚ) = 0 - 0 :=
  ⟨by with_unfolding_all decide,
   calculateMACD_histogram_identity (List.replicate 35 0) 12 26 9 ⟨0, 0, 0⟩
     (by with_unfolding_all decide)⟩

/-- C2: on the fixed inputs RSI = 55, MACD histogram = +1, ema50 = 100,
ema200 = 90, price = 105, the composite scorer returns score 100, the
"Strong Bull" phase (source label `Bull Market Fort 🚀`), phaseColor `up`, and
signals containing the Golden-Cross and positive-MACD tags (source labels
`Golden Cross` and `MACD positif`). -/
theorem bullMarket_fixed_inputs :
    (calculateBullMarketIndicator 55 ⟨1, 0, 1⟩ 100 90 105).score = 100 ∧
    (calculateBullMarketIndicator 55 ⟨1, 0, 1⟩ 100 90 105).phase = "Bull Market Fort 🚀" ∧
    (calculateBullMarketIndicator 55 ⟨1, 0, 1⟩ 100 90 105).phaseColor = "up" ∧
    "Golden Cross" ∈ (calculateBullMarketIndicator 55 ⟨1, 0, 1⟩ 100 90 105).signals ∧
    "MACD positif" ∈ (calculateBullMarketIndicator 55 ⟨1, 0, 1⟩ 100 90 105).signals := by
  decide

/-- C8: for every score in [0,100] the phase label is selected by the
thresholds 80/60/40/20 evaluated high to low with first match winning, and the
phase color is `up` for the two bull tiers, `down` for the two bear tiers and
`neutral` otherwise.  (Source labels: `Bull Market Fort 🚀` = Strong Bull,
`Bull Market Modéré 📈` = Moderate Bull, `Neutre / Consolidation ⚖️` =
Neutral/Consolidation, `Bear Market Modéré 📉` = Moderate Bear,
`Bear Market Fort 🔻` = Strong Bear.) -/
theorem phaseOf_thresholds (score : ℤ) (h0 : 0 ≤ score) (h100 : score ≤ 100) :
    (80 ≤ score → phaseOf score = ("Bull Market Fort 🚀", "up")) ∧
    (60 ≤ score → score < 80 → phaseOf score = ("Bull Market Modéré 📈", "up")) ∧
    (40 ≤ score → score < 60 → phaseOf score = ("Neutre / Consolidation ⚖️", "neutral")) ∧
    (20 ≤ score → score < 40 → phaseOf score = ("Bear Market Modéré 📉", "down")) ∧
    (score < 20 → phaseOf score = ("Bear Market Fort 🔻", "down")) ∧
    ((phaseOf score).2 = "up" ↔ 60 ≤ score) ∧
    ((phaseOf score).2 = "down" ↔ score < 40) ∧
    ((phaseOf score).2 = "neutral" ↔ 40 ≤ score ∧ score < 60) := by
  unfold phaseOf
  split_ifs <;>
    refine ⟨?_, ?_, ?_, ?_, ?_, ?_, ?_, ?_⟩ <;>
    simp_all <;> omega

/-- Witness for C8 at the concrete score 85. -/
theorem phaseOf_thresholds_witness : phaseOf 85 = ("Bull Market Fort 🚀", "up") :=
  (phaseOf_thresholds 85 (by decide) (by decide)).1 (by decide)

set_option maxHeartbeats 1000000 in
/-- C10: for every input, the signals list starts with exactly one RSI tag,
then exactly one MACD tag, then exactly one cross tag, followed by zero, one or
two price-versus-EMA tags (so its length is between 3 and 5), and the score is
the sum of the weights of exactly the conditions whose pass tag was emitted. -/
theorem bullMarket_signals_structure (rsi : ℚ) (macd : MacdR) (ema50 ema200 currentPrice : ℚ) :
    (3 ≤ (calculateBullMarketIndicator rsi macd ema50 ema200 currentPrice).signals.length ∧
      (calculateBullMarketIndicator rsi macd ema50 ema200 currentPrice).signals.length ≤ 5) ∧
    (∃ t1 t2 t3 rest,
      (calculateBullMarketIndicator rsi macd ema50 ema200 currentPrice).signals
        = t1 :: t2 :: t3 :: rest ∧
      (t1 = "RSI sain" ∨ t1 = "RSI surachat" ∨ t1 = "RSI faible") ∧
      (t2 = "MACD positif" ∨ t2 = "MACD négatif") ∧
      (t3 = "Golden Cross" ∨ t3 = "Death Cross") ∧
      (rest = [] ∨ rest = ["Prix > EMA50"] ∨ rest = ["Prix > EMA200"] ∨
        rest = ["Prix > EMA50", "Prix > EMA200"])) ∧
    (calculateBullMarketIndicator rsi macd ema50 ema200 currentPrice).score =
      specScoreOfSignals (calculateBullMarketIndicator rsi macd ema50 ema200 currentPrice).signals := by
  unfold calculateBullMarketIndicator
  dsimp only
  split_ifs <;>
    exact ⟨by decide, ⟨_, _, _, _, rfl, by decide, by decide, by decide, by decide⟩, by decide⟩

/-- Helper: the simple mean of a non-empty list lies between any lower and
upper bound of its elements. -/
lemma mean_mem (l : List ℚ) (lo hi : ℚ) (hne : l ≠ [])
    (hall : ∀ c ∈ l, lo ≤ c ∧ c ≤ hi) :
    lo ≤ l.sum / (l.length : ℚ) ∧ l.sum / (l.length : ℚ) ≤ hi := by
  have hlen : 0 < (l.length : ℚ) := by
    have : l.length ≠ 0 := by simpa using hne
    exact_mod_cast Nat.pos_of_ne_zero this
  have hlo : (l.length : ℚ) * lo ≤ l.sum := by
    have := List.card_nsmul_le_sum l lo fun x hx => (hall x hx).1
    simpa [nsmul_eq_mul] using this
  have hhi : l.sum ≤ (l.length : ℚ) * hi := by
    have := List.sum_le_card_nsmul l hi fun x hx => (hall x hx).2
    simpa [nsmul_eq_mul] using this
  constructor
  · rw [le_div_iff₀ hlen]; linarith
  · rw [div_le_iff₀ hlen]; linarith

/-- Helper: the EMA recurrence is a convex combination, so folding it over a
list keeps the accumulator between any bounds of the seed and the elements. -/
lemma foldl_emaStep_mem (k lo hi : ℚ) (hk0 : 0 ≤ k) (hk1 : k ≤ 1) :
    ∀ (l : List ℚ) (e : ℚ), lo ≤ e → e ≤ hi → (∀ c ∈ l, lo ≤ c ∧ c ≤ hi) →
      lo ≤ l.foldl (emaStep k) e ∧ l.foldl (emaStep k) e ≤ hi := by
  intro l
  induction l with
  | nil => exact fun e h1 h2 _ => ⟨h1, h2⟩
  | cons c t ih =>
    intro e h1 h2 hall
    have hc := hall c (by simp)
    have step_lo : lo ≤ emaStep k e c := by
      unfold emaStep
      nlinarith [mul_nonneg (sub_nonneg.2 hc.1) hk0,
        mul_nonneg (sub_nonneg.2 h1) (sub_nonneg.2 hk1)]
    have step_hi : emaStep k e c ≤ hi := by
      unfold emaStep
      nlinarith [mul_nonneg (sub_nonneg.2 hc.2) hk0,
        mul_nonneg (sub_nonneg.2 h2) (sub_nonneg.2 hk1)]
    exact ih (emaStep k e c) step_lo step_hi fun x hx => hall x (by simp [hx])

/-- C5: for every close-price sequence long enough for the period (and a
positive period, as in every call site), the value returned by `calculateEMA`
lies within any interval containing all the closes — in particular within
`[min(closes), max(closes)]`. -/
theorem calculateEMA_within_range (closes : List ℚ) (period : ℕ) (r lo hi : ℚ)
    (hp : 1 ≤ period) (h : calculateEMA closes period = some r)
    (hall : ∀ c ∈ closes, lo ≤ c ∧ c ≤ hi) : lo ≤ r ∧ r ≤ hi := by
  unfold calculateEMA at h
  split at h
  · exact absurd h (by simp)
  · rename_i hlen
    injection h with h
    subst h
    have hk0 : (0:ℚ) ≤ 2 / ((period : ℚ) + 1) := by positivity
    have hk1 : 2 / ((period : ℚ) + 1) ≤ 1 := by
      rw [div_le_one (by positivity)]
      have : (1:ℚ) ≤ (period : ℚ) := by exact_mod_cast hp
      linarith
    have htake : (closes.take period).length = period := by
      simp only [List.length_take]
      omega
    have hne : closes.take period ≠ [] := by
      intro hcon
      rw [hcon] at htake
      simp at htake
      omega
    have hseed := mean_mem (closes.take period) lo hi hne
      fun c hc => hall c (List.take_subset _ _ hc)
    rw [htake] at hseed
    exact foldl_emaStep_mem _ lo hi hk0 hk1 _ _ hseed.1 hseed.2
      fun c hc => hall c (List.drop_subset _ _ hc)

/-- Witness for C5 at the concrete batch `[1, 2]` with period 1. -/
theorem calculateEMA_within_range_witness : (1:ℚ) ≤ 2 ∧ (2:ℚ) ≤ 2 :=
  calculateEMA_within_range [1, 2] 1 2 1 2 (le_refl 1) (by with_unfolding_all decide)
    (by intro c hc; fin_cases hc <;> constructor <;> norm_num)

/-- C4: whenever `calculateBollingerBands` returns bands (positive period and
non-negative multiplier, as at every call site), they satisfy
`upper - middle = middle - lower`, `lower ≤ middle ≤ upper`, and the middle
band is the simple mean of the last `period` closes. -/
theorem bollinger_symmetric_ordered (S : SqrtModel) (closes : List ℚ) (period : ℕ)
    (stdDev : ℚ) (r : BollR) (hp : 1 ≤ period) (hm : 0 ≤ stdDev)
    (h : calculateBollingerBands S closes period stdDev = some r) :
    r.upper - r.middle = r.middle - r.lower ∧
    r.lower ≤ r.middle ∧ r.middle ≤ r.upper ∧
    r.middle = (closes.drop (closes.length - period)).sum / (period : ℚ) := by
  unfold calculateBollingerBands at h
  split at h
  · exact absurd h (by simp)
  · have hp0 : ¬ (period = 0) := by omega
    simp only [if_neg hp0] at h
    injection h with h
    subst h
    have hvar : (0:ℚ) ≤
        ((closes.drop (closes.length - period)).map fun close =>
          (close - (closes.drop (closes.length - period)).sum / (period : ℚ)) ^ 2).sum /
          (period : ℚ) := by
      apply div_nonneg
      · apply List.sum_nonneg
        intro x hx
        obtain ⟨a, _, rfl⟩ := List.mem_map.1 hx
        positivity
      · positivity
    have hsd : 0 ≤ S.sqrt _ * stdDev := mul_nonneg (S.sqrt_nonneg _ hvar) hm
    refine ⟨by dsimp only; ring, ?_, ?_, rfl⟩
    · dsimp only
      linarith
    · dsimp only
      linarith

/-- Witness for C4 at the concrete batch `[1, 3]` with period 2, multiplier 2
(`variance = 1`, `Rat.sqrt 1 = 1`, bands `(4, 2, 0)`). -/
theorem bollinger_symmetric_ordered_witness :
    (4:ℚ) - 2 = 2 - 0 ∧ (0:ℚ) ≤ 2 ∧ (2:ℚ) ≤ 4 ∧ (2:ℚ) = ([(1:ℚ), 3].drop 0).sum / 2 := by
  have h := bollinger_symmetric_ordered ratSqrtModel [1, 3] 2 2 ⟨4, 2, 0⟩ (by decide) (by decide)
    (by with_unfolding_all decide)
  simpa using h

/-- C9: the compute pipeline is deterministic — two aggregations over the
identical candle batch agree on every field of the result (current price, all
indicator values, the composite score), differing at most in the `timestamp`
field, which is exactly the clock reading passed in. -/
theorem getAllIndicators_deterministic (S : SqrtModel) (klines : List Candle) (t1 t2 : ℤ) :
    (getAllIndicators S klines t1).map (fun s => { s with timestamp := 0 }) =
      (getAllIndicators S klines t2).map (fun s => { s with timestamp := 0 }) ∧
    (getAllIndicators S klines t1).map Snapshot.timestamp =
      (getAllIndicators S klines t1).map (fun _ => t1) := by
  unfold getAllIndicators
  dsimp only
  cases calculateMACD (klines.map Candle.close) 12 26 9 <;>
    cases calculateBollingerBands S (klines.map Candle.close) 20 2 <;>
      exact ⟨rfl, rfl⟩

set_option maxRecDepth 100000 in
/-- C1 counterexample: on a batch of 50 identical candles the aggregation does
NOT report absence of the snapshot — it returns a complete snapshot object in
which only the `ema200` field is `null` (and whose composite score was computed
against that `null`, coerced to 0 by the relational operators). -/
theorem getAllIndicators_50_candles_full_object :
    getAllIndicators ratSqrtModel klines50 0 = Except.ok
      { currentPrice := 1
        timestamp := 0
        rsi := { value := some 100, period := 14, timeframe := "Daily" }
        macd := { macd := 0, signal := 0, histogram := 0, periods := "12/26/9", timeframe := "Daily" }
        bollinger := { upper := 1, middle := 1, lower := 1, spread := 0
                       spreadCategory := "Faible (Consolidation)", period := 20, timeframe := "Daily" }
        ema := { ema50 := some 1, ema200 := none, trend := "Haussier (Golden Cross)"
                 timeframe := "Daily" }
        bullMarket := { score := 40, phase := "Neutre / Consolidation ⚖️", phaseColor := "neutral"
                        signals := ["RSI surachat", "MACD négatif", "Golden Cross", "Prix > EMA200"] } }
    := by
  have hmap : klines50.map Candle.close = List.replicate 50 (1:ℚ) := by
    simp [klines50, List.map_replicate]
  have hrsi : calculateRSI (List.replicate 50 (1:ℚ)) 14 = some 100 := by
    with_unfolding_all decide
  have hmacd : calculateMACD (List.replicate 50 (1:ℚ)) 12 26 9 = some ⟨0, 0, 0⟩ := by
    with_unfolding_all decide
  have hboll : calculateBollingerBands ratSqrtModel (List.replicate 50 (1:ℚ)) 20 2
      = some ⟨1, 1, 1⟩ := by
    with_unfolding_all decide
  have hema50 : calculateEMA (List.replicate 50 (1:ℚ)) 50 = some 1 := by
    with_unfolding_all decide
  have hema200 : calculateEMA (List.replicate 50 (1:ℚ)) 200 = none := by decide
  have hlast : (List.replicate 50 (1:ℚ)).getLastD 0 = 1 := by decide
  unfold getAllIndicators
  dsimp only
  rw [hmap, hrsi, hmacd, hboll, hema50, hema200, hlast]
  dsimp only
  norm_num [calculateBullMarketIndicator, phaseOf]

/-- C1 amended: for a batch of 50 to 199 candles, `getAllIndicators` does not
report absence of the snapshot and does not throw: it returns a partial
snapshot in which `ema200` is the only absent indicator — `rsi` and `ema50`
are populated, and the `macd` and `bollinger` components of an ok snapshot are
present by construction (the source dereferences them before building the
object). -/
theorem getAllIndicators_partial_snapshot (S : SqrtModel) (klines : List Candle) (now : ℤ)
    (h50 : 50 ≤ klines.length) (h200 : klines.length < 200) :
    ∃ s, getAllIndicators S klines now = Except.ok s ∧ s.ema.ema200 = none ∧
      s.ema.ema50.isSome = true ∧ s.rsi.value.isSome = true := by
  have hlen : (klines.map Candle.close).length = klines.length := klines.length_map _
  obtain ⟨m, hm⟩ := Option.isSome_iff_exists.1
    ((calculateMACD_isSome_iff (klines.map Candle.close) 12 26 9).2 (by omega))
  obtain ⟨b, hb⟩ := Option.isSome_iff_exists.1
    ((calculateBollingerBands_isSome_iff S (klines.map Candle.close) 20 2).2 (by omega))
  obtain ⟨r, hr⟩ := Option.isSome_iff_exists.1
    ((calculateRSI_isSome_iff (klines.map Candle.close) 14).2 (by omega))
  obtain ⟨e, he⟩ := Option.isSome_iff_exists.1
    ((calculateEMA_isSome_iff (klines.map Candle.close) 50).2 (by omega))
  have hnone : calculateEMA (klines.map Candle.close) 200 = none := by
    cases hx : calculateEMA (klines.map Candle.close) 200 with
    | none => rfl
    | some v =>
      have : (200:ℕ) ≤ (klines.map Candle.close).length :=
        (calculateEMA_isSome_iff (klines.map Candle.close) 200).1 (by rw [hx]; rfl)
      omega
  unfold getAllIndicators
  dsimp only
  rw [hm, hb, hnone, hr, he]
  exact ⟨_, rfl, rfl, rfl, rfl⟩

/-- Witness for the amended C1 at the concrete batch of 50 candles. -/
theorem getAllIndicators_partial_snapshot_witness :
    ∃ s, getAllIndicators ratSqrtModel klines50 0 = Except.ok s ∧ s.ema.ema200 = none ∧
      s.ema.ema50.isSome = true ∧ s.rsi.value.isSome = true :=
  getAllIndicators_partial_snapshot ratSqrtModel klines50 0 (by decide) (by decide)

/-! ### RSI: non-negativity of the smoothed averages and the avgLoss = 0 characterisation -/

/-- Helper: a gain term `change > 0 ? change : 0` is non-negative. -/
lemma gain_term_nonneg (c : ℚ) : 0 ≤ if c > 0 then c else 0 := by
  split
  · linarith
  · exact le_refl 0

/-- Helper: a first-loop loss term (`change` added to `losses` as `-change`
when not a gain) is non-negative. -/
lemma loss_term_first_nonneg (c : ℚ) : 0 ≤ if c > 0 then 0 else -c := by
  split
  · exact le_refl 0
  · rename_i h
    push_neg at h
    linarith

/-- Helper: a second-loop loss term `change < 0 ? -change : 0` is non-negative. -/
lemma loss_term_nonneg (c : ℚ) : 0 ≤ if c < 0 then -c else 0 := by
  split
  · linarith
  · exact le_refl 0

/-- Helper: one Wilder smoothing step keeps both averages non-negative. -/
lemma wilderStep_nonneg (period : ℕ) (hp : 1 ≤ period) (gl : ℚ × ℚ) (c : ℚ)
    (hg : 0 ≤ gl.1) (hl : 0 ≤ gl.2) :
    0 ≤ (wilderStep period gl c).1 ∧ 0 ≤ (wilderStep period gl c).2 := by
  have hp1 : (0:ℚ) ≤ (period : ℚ) - 1 := by
    have : (1:ℚ) ≤ (period : ℚ) := by exact_mod_cast hp
    linarith
  have hpnn : (0:ℚ) ≤ (period : ℚ) := by positivity
  unfold wilderStep
  exact ⟨div_nonneg (add_nonneg (mul_nonneg hg hp1) (gain_term_nonneg c)) hpnn,
    div_nonneg (add_nonneg (mul_nonneg hl hp1) (loss_term_nonneg c)) hpnn⟩

/-- Helper: the Wilder smoothing fold keeps both averages non-negative. -/
lemma foldl_wilder_nonneg (period : ℕ) (hp : 1 ≤ period) (l : List ℚ) :
    ∀ gl : ℚ × ℚ, 0 ≤ gl.1 → 0 ≤ gl.2 →
      0 ≤ (l.foldl (wilderStep period) gl).1 ∧ 0 ≤ (l.foldl (wilderStep period) gl).2 := by
  induction l with
  | nil => exact fun gl hg hl => ⟨hg, hl⟩
  | cons c t ih =>
    intro gl hg hl
    have h := wilderStep_nonneg period hp gl c hg hl
    exact ih _ h.1 h.2

/-- Helper: the seed averages of `calculateRSI` are non-negative. -/
lemma rsiInit_nonneg (closes : List ℚ) (period : ℕ) :
    0 ≤ (rsiInit closes period).1 ∧ 0 ≤ (rsiInit closes period).2 := by
  unfold rsiInit
  constructor
  · refine div_nonneg (List.sum_nonneg fun x hx => ?_) (by positivity)
    obtain ⟨c, _, rfl⟩ := List.mem_map.1 hx
    exact gain_term_nonneg c
  · refine div_nonneg (List.sum_nonneg fun x hx => ?_) (by positivity)
    obtain ⟨c, _, rfl⟩ := List.mem_map.1 hx
    exact loss_term_first_nonneg c

/-- Helper: if the average loss is zero and every remaining change is
non-negative, the Wilder fold keeps the average loss at zero. -/
lemma foldl_wilder_loss_eq_zero (period : ℕ) (l : List ℚ) :
    ∀ gl : ℚ × ℚ, gl.2 = 0 → (∀ d ∈ l, 0 ≤ d) →
      (l.foldl (wilderStep period) gl).2 = 0 := by
  induction l with
  | nil => exact fun gl h _ => h
  | cons c t ih =>
    intro gl hgl hall
    apply ih
    · show (wilderStep period gl c).2 = 0
      unfold wilderStep
      have hc : 0 ≤ c := hall c (List.mem_cons_self c t)
      rw [if_neg (not_lt.2 hc), hgl]
      simp
    · exact fun d hd => hall d (List.mem_cons_of_mem _ hd)

/-- Helper: for `period ≥ 2`, a positive average loss stays positive through
the Wilder fold, and a negative change anywhere in the fold makes it positive. -/
lemma foldl_wilder_loss_pos (period : ℕ) (hp : 2 ≤ period) (l : List ℚ) :
    ∀ gl : ℚ × ℚ, 0 ≤ gl.1 → 0 ≤ gl.2 → (0 < gl.2 ∨ ∃ d ∈ l, d < 0) →
      0 < (l.foldl (wilderStep period) gl).2 := by
  have hp1 : (1:ℚ) ≤ (period : ℚ) - 1 := by
    have : (2:ℚ) ≤ (period : ℚ) := by exact_mod_cast hp
    linarith
  have hppos : (0:ℚ) < (period : ℚ) := by
    have : 0 < period := by omega
    exact_mod_cast this
  induction l with
  | nil =>
    rintro gl _ _ (hpos | ⟨d, hd, _⟩)
    · exact hpos
    · simp at hd
  | cons c t ih =>
    intro gl hg hl hcase
    have hstep := wilderStep_nonneg period (by omega) gl c hg hl
    rcases hcase with hpos | hex
    · refine ih _ hstep.1 hstep.2 (Or.inl ?_)
      show 0 < (wilderStep period gl c).2
      unfold wilderStep
      refine div_pos ?_ hppos
      have h1 : 0 < gl.2 * ((period : ℚ) - 1) := by nlinarith
      have h2 := loss_term_nonneg c
      linarith
    · obtain ⟨d, hd, hdneg⟩ := hex
      rcases List.mem_cons.1 hd with rfl | hdt
      · refine ih _ hstep.1 hstep.2 (Or.inl ?_)
        show 0 < (wilderStep period gl d).2
        unfold wilderStep
        refine div_pos ?_ hppos
        have h1 : 0 ≤ gl.2 * ((period : ℚ) - 1) := mul_nonneg hl (by linarith)
        rw [if_pos hdneg]
        linarith
      · exact ih _ hstep.1 hstep.2 (Or.inr ⟨d, hdt, hdneg⟩)

/-- Helper: in a list of non-negative rationals each element is at most the sum. -/
lemma mem_le_sum_of_nonneg (l : List ℚ) (h : ∀ x ∈ l, 0 ≤ x) : ∀ x ∈ l, x ≤ l.sum := by
  induction l with
  | nil => simp
  | cons a t ih =>
    intro x hx
    have ha := h a (List.mem_cons_self a t)
    have hts : 0 ≤ t.sum := List.sum_nonneg fun y hy => h y (List.mem_cons_of_mem _ hy)
    rcases List.mem_cons.1 hx with rfl | hxt
    · simp only [List.sum_cons]
      linarith
    · have := ih (fun y hy => h y (List.mem_cons_of_mem _ hy)) x hxt
      simp only [List.sum_cons]
      linarith

/-- Helper: a negative change within the first `period` changes makes the seed
average loss strictly positive. -/
lemma rsiInit_loss_pos (closes : List ℚ) (period : ℕ) (hp : 1 ≤ period) (d : ℚ)
    (hd : d ∈ (deltasOf closes).take period) (hneg : d < 0) :
    0 < (rsiInit closes period).2 := by
  have hppos : (0:ℚ) < (period : ℚ) := by
    have : 0 < period := by omega
    exact_mod_cast this
  unfold rsiInit
  refine div_pos ?_ hppos
  have hmem : -d ∈ ((deltasOf closes).take period).map fun c => if c > 0 then 0 else -c :=
    List.mem_map.2 ⟨d, hd, by rw [if_neg (by linarith : ¬ d > 0)]⟩
  have hle := mem_le_sum_of_nonneg _
    (fun x hx => by
      obtain ⟨c, _, rfl⟩ := List.mem_map.1 hx
      exact loss_term_first_nonneg c)
    (-d) hmem
  linarith

set_option maxHeartbeats 1000000 in
/-- C3 amended: for every valid input with a positive period, `calculateRSI`
returns a value in `[0, 100]` (when the final average loss is zero it returns
100 directly, with no division by zero); and — for `period ≥ 2`, which covers
the default period 14 — the result is exactly 100 if and only if every
consecutive price change is non-negative.  (For `period = 1` the equivalence
fails, see the counterexample.) -/
theorem calculateRSI_range_and_100_iff (closes : List ℚ) (period : ℕ) (r : ℚ)
    (hp : 1 ≤ period) (h : calculateRSI closes period = some r) :
    (0 ≤ r ∧ r ≤ 100) ∧
    (2 ≤ period → (r = 100 ↔ ∀ d ∈ deltasOf closes, 0 ≤ d)) := by
  unfold calculateRSI at h
  split at h
  · exact absurd h (by simp)
  · have hnn : 0 ≤ (rsiAvgs closes period).1 ∧ 0 ≤ (rsiAvgs closes period).2 := by
      unfold rsiAvgs
      exact foldl_wilder_nonneg period hp _ _ (rsiInit_nonneg closes period).1
        (rsiInit_nonneg closes period).2
    have hzero_of_all : (∀ d ∈ deltasOf closes, 0 ≤ d) → (rsiAvgs closes period).2 = 0 := by
      intro hall
      unfold rsiAvgs
      apply foldl_wilder_loss_eq_zero
      · show (rsiInit closes period).2 = 0
        unfold rsiInit
        dsimp only
        have hsum : ((((deltasOf closes).take period).map
            fun c => if c > 0 then 0 else -c).sum : ℚ) = 0 := by
          apply List.sum_eq_zero
          intro x hx
          obtain ⟨c, hc, rfl⟩ := List.mem_map.1 hx
          have hcnn : 0 ≤ c := hall c (List.take_subset _ _ hc)
          split
          · rfl
          · rename_i hcpos
            push_neg at hcpos
            have : c = 0 := le_antisymm hcpos hcnn
            rw [this, neg_zero]
        rw [hsum, zero_div]
      · exact fun d hd => hall d (List.drop_subset _ _ hd)
    have hpos_of_neg : 2 ≤ period → (∃ d ∈ deltasOf closes, d < 0) →
        0 < (rsiAvgs closes period).2 := by
      rintro hp2 ⟨d, hd, hneg⟩
      have hd2 : d ∈ (deltasOf closes).take period ++ (deltasOf closes).drop period := by
        rw [List.take_append_drop]
        exact hd
      unfold rsiAvgs
      rcases List.mem_append.1 hd2 with htk | hdr
      · exact foldl_wilder_loss_pos period hp2 _ _ (rsiInit_nonneg _ _).1 (rsiInit_nonneg _ _).2
          (Or.inl (rsiInit_loss_pos closes period hp d htk hneg))
      · exact foldl_wilder_loss_pos period hp2 _ _ (rsiInit_nonneg _ _).1 (rsiInit_nonneg _ _).2
          (Or.inr ⟨d, hdr, hneg⟩)
    split at h
    · rename_i hzero
      injection h with h
      subst h
      refine ⟨⟨by norm_num, le_refl _⟩, fun hp2 => ⟨fun _ => ?_, fun _ => rfl⟩⟩
      by_contra hneg
      push_neg at hneg
      exact absurd hzero (ne_of_gt (hpos_of_neg hp2 hneg))
    · rename_i hzero
      injection h with h
      subst h
      have hlpos : 0 < (rsiAvgs closes period).2 := lt_of_le_of_ne hnn.2 (Ne.symm hzero)
      have hratio : 0 ≤ (rsiAvgs closes period).1 / (rsiAvgs closes period).2 :=
        div_nonneg hnn.1 hlpos.le
      have hden : (0:ℚ) < 1 + (rsiAvgs closes period).1 / (rsiAvgs closes period).2 := by
        linarith
      have hq_pos : 0 < 100 / (1 + (rsiAvgs closes period).1 / (rsiAvgs closes period).2) :=
        div_pos (by norm_num) hden
      have hq_le : 100 / (1 + (rsiAvgs closes period).1 / (rsiAvgs closes period).2) ≤ 100 := by
        rw [div_le_iff₀ hden]
        nlinarith
      refine ⟨⟨by linarith, by linarith⟩,
        fun hp2 => ⟨fun habs => absurd habs (ne_of_lt (by linarith)), fun hall => ?_⟩⟩
      exact absurd (hzero_of_all hall) hzero

/-- Witness for the amended C3 at the concrete batch `[1, 2, 3]`, period 2
(all changes positive, RSI = 100). -/
theorem calculateRSI_range_and_100_iff_witness :
    ((0:ℚ) ≤ 100 ∧ (100:ℚ) ≤ 100) ∧ ((100:ℚ) = 100 ↔ ∀ d ∈ deltasOf [1, 2, 3], 0 ≤ d) :=
  ⟨(calculateRSI_range_and_100_iff [1, 2, 3] 2 100 (by decide)
      (by with_unfolding_all decide)).1,
   (calculateRSI_range_and_100_iff [1, 2, 3] 2 100 (by decide)
      (by with_unfolding_all decide)).2 (by decide)⟩

/-- C3 counterexample: with period 1 the "RSI = 100 iff all changes are
non-negative" claim fails — on the closes `[1, 0, 5]` the first change is
negative, yet Wilder smoothing with `period - 1 = 0` erases the recorded loss
and `calculateRSI` returns exactly 100. -/
theorem calculateRSI_period_one_100_despite_loss :
    calculateRSI [1, 0, 5] 1 = some 100 ∧ ¬ (∀ d ∈ deltasOf [1, 0, 5], 0 ≤ d) := by
  constructor
  · with_unfolding_all decide
  · with_unfolding_all decide

end BitcoinIndicators
